import Mathlib

/-!
Verification development for the Stats repository: a self-hosted
event-analytics service.  The repository ships the SQL schema
(migrations and the collectors DDL), two iterations of the dashboard
frontend script, and documentation; the Rust backend sources (ingestion
queue, collector registry, session reconstructor, aggregation engine)
are not part of the source tree, so those components are modelled from
the specification text, as marked on each definition.

Conventions used throughout:
* instants of time are integers (minutes since an arbitrary epoch) and
  integer division is Lean `Int` euclidean division, which coincides
  with mathematical floor division for the positive divisors (60, 1440)
  used here, matching the floor semantics of JavaScript Date
  arithmetic;
* JavaScript `getTimezoneOffset()` is modelled as a fixed integer
  `tzOff` in minutes (UTC minus local time), i.e. a fixed-offset
  timezone without DST transitions.
-/

/-! ## The persisted SQL schema, transcribed from the migrations -/

namespace Schema

/-- Column of a CREATE TABLE statement: name, SQL type, NOT NULL flag,
PRIMARY KEY flag, and an optional column-level REFERENCES clause
(referenced table, referenced column). -/
structure ColumnDef where
  name : String
  sqlType : String
  notNull : Bool
  primaryKey : Bool
  refs : Option (String × String)
deriving DecidableEq

/-- Table definition: name, columns, and table-level FOREIGN KEY
constraints given as (column, referenced table, referenced column). -/
structure TableDef where
  name : String
  columns : List ColumnDef
  foreignKeys : List (String × String × String)
deriving DecidableEq

/-- Transcription of migrations/2024-02-22-020304_create_events/up.sql:
CREATE TABLE events with six columns and no FOREIGN KEY clause. -/
def events : TableDef :=
  { name := "events"
    columns :=
      [ { name := "id", sqlType := "TEXT", notNull := true, primaryKey := true, refs := none }
      , { name := "url", sqlType := "TEXT", notNull := true, primaryKey := false, refs := none }
      , { name := "referrer", sqlType := "TEXT", notNull := false, primaryKey := false, refs := none }
      , { name := "name", sqlType := "TEXT", notNull := true, primaryKey := false, refs := none }
      , { name := "timestamp", sqlType := "TIMESTAMP", notNull := true, primaryKey := false, refs := none }
      , { name := "collector_id", sqlType := "TEXT", notNull := true, primaryKey := false, refs := none } ]
    foreignKeys := [] }

/-- Transcription of the collectors DDL shipped with the repository:
CREATE TABLE collectors with seven columns. -/
def collectors : TableDef :=
  { name := "collectors"
    columns :=
      [ { name := "id", sqlType := "TEXT", notNull := true, primaryKey := true, refs := none }
      , { name := "origin", sqlType := "TEXT", notNull := true, primaryKey := false, refs := none }
      , { name := "country", sqlType := "TEXT", notNull := true, primaryKey := false, refs := none }
      , { name := "city", sqlType := "TEXT", notNull := true, primaryKey := false, refs := none }
      , { name := "os", sqlType := "TEXT", notNull := false, primaryKey := false, refs := none }
      , { name := "browser", sqlType := "TEXT", notNull := false, primaryKey := false, refs := none }
      , { name := "timestamp", sqlType := "TIMESTAMP", notNull := true, primaryKey := false, refs := none } ]
    foreignKeys := [] }

/-- Whether a table declares (at column level or table level) that
column `col` references `refTable`.`refCol`. -/
def declaresReference (t : TableDef) (col refTable refCol : String) : Bool :=
  t.columns.any (fun c => c.name == col && c.refs == some (refTable, refCol)) ||
    t.foreignKeys.any (fun k => k == (col, refTable, refCol))

end Schema

/-! ## The backend core, modelled from the specification

The Rust backend is not present in the source tree; every definition in
this namespace is modelled from the specification text (sections 3, 4
and 7 of the spec) and is marked as such. -/

namespace Core

/-- Modelled from the spec: a Collector row (section 3); the Rust data
type is not in the repository. -/
structure Collector where
  id : String
  origin : String
  country : String
  city : String
  os : Option String
  browser : Option String
  timestamp : Int
deriving DecidableEq

/-- Modelled from the spec: an Event row (section 3); the Rust data
type is not in the repository. -/
structure Event where
  id : String
  url : String
  referrer : Option String
  name : String
  timestamp : Int
  collector_id : String
deriving DecidableEq

/-- Modelled from the spec: the state shared by the ingestion queue and
the durable store (sections 4.2 and 4.3); the Rust sources are not in
the repository.  `queue` is the bounded in-memory buffer, `events` and
`collectors` are the durable tables. -/
structure IngestState where
  collectors : List Collector
  events : List Event
  queue : List Event
  capacity : Nat
deriving DecidableEq

/-- Result of submitting one event to the ingestion queue. -/
inductive SubmitResult where
  | accepted
  | dropped
  | rejectedUnknownCollector
deriving DecidableEq

/-- Modelled from the spec: `lookupCollector` style existence check for
a collector id (section 4.1). -/
def knownCollector (s : IngestState) (cid : String) : Bool :=
  s.collectors.any (fun c => c.id == cid)

/-- Modelled from the spec: `submit(event)` (section 4.2).  Unknown
collector ids are rejected before entering the queue; at capacity the
event is dropped and the state is unchanged; otherwise the event is
appended to the buffer. -/
def submit (s : IngestState) (e : Event) : SubmitResult × IngestState :=
  if ¬ knownCollector s e.collector_id then
    (SubmitResult.rejectedUnknownCollector, s)
  else if s.queue.length ≥ s.capacity then
    (SubmitResult.dropped, s)
  else
    (SubmitResult.accepted, { s with queue := s.queue ++ [e] })

/-- Modelled from the spec: the drain operation (section 4.2) removes
up to `capacity = PROCESSING_BATCH_SIZE` buffered events and hands them
to the storage writer as one durably committed batch. -/
def drain (s : IngestState) : IngestState :=
  { s with
    queue := s.queue.drop s.capacity
    events := s.events ++ s.queue.take s.capacity }

/-- Modelled from the spec: persisting a freshly created collector row
(section 4.1); collectors are never mutated or deleted. -/
def addCollector (s : IngestState) (c : Collector) : IngestState :=
  { s with collectors := s.collectors ++ [c] }

/-- One operation of the core: collector creation, event submission, or
a queue drain. -/
inductive Op where
  | create (c : Collector)
  | submitOp (e : Event)
  | drainOp
deriving DecidableEq

/-- Apply one operation to the state. -/
def applyOp (s : IngestState) : Op → IngestState
  | Op.create c => addCollector s c
  | Op.submitOp e => (submit s e).2
  | Op.drainOp => drain s

/-- The empty initial state with a given queue capacity. -/
def initial (cap : Nat) : IngestState :=
  { collectors := [], events := [], queue := [], capacity := cap }

/-- Run a sequence of operations from the empty initial state. -/
def run (cap : Nat) (ops : List Op) : IngestState :=
  ops.foldl applyOp (initial cap)

/-- Referential integrity: every event, stored or still buffered,
references an existing collector. -/
def refIntegrity (s : IngestState) : Bool :=
  (s.events ++ s.queue).all (fun e => knownCollector s e.collector_id)

/-- Error raised by collector creation. -/
inductive CreateError where
  | originNotAllowed
deriving DecidableEq

/-- Modelled from the spec: `createCollector` (section 4.1); the Rust
source is not in the repository.  The geolocation collaborator is a
function from client address to an optional (country, city) pair, with
`none` meaning the lookup failed; the user-agent parser is a
best-effort collaborator returning optional os and browser. -/
def createCollector (allowlist : List String) (origin clientAddress userAgent : String)
    (geo : String → Option (String × String))
    (uaParse : String → Option String × Option String)
    (newId : String) (now : Int) : Except CreateError Collector :=
  if ¬ allowlist.contains origin then
    Except.error CreateError.originNotAllowed
  else
    let g := geo clientAddress
    let ua := uaParse userAgent
    Except.ok
      { id := newId
        origin := origin
        country := (g.map Prod.fst).getD ""
        city := (g.map Prod.snd).getD ""
        os := ua.1
        browser := ua.2
        timestamp := now }

/-- Result of the period percentage-change computation. -/
inductive PctChange where
  | finite (q : Rat)
  | cappedInfinite
deriving DecidableEq

/-- Modelled from the spec: period percentage change (section 4.5); the
Rust source is not in the repository.  The percentage is
((current - previous) / previous) * 100, defined as 0 when both counts
are 0 and as a capped positive-infinite increase when only the previous
count is 0. -/
def percentageChange (countPrevious countCurrent : Nat) : PctChange :=
  if countPrevious = 0 then
    if countCurrent = 0 then PctChange.finite 0 else PctChange.cappedInfinite
  else
    PctChange.finite ((((countCurrent : Rat) - (countPrevious : Rat)) / (countPrevious : Rat)) * 100)

/-- Modelled from the spec: the single left-to-right pass of the
session reconstructor (section 4.4).  `prev` is the timestamp of the
previous event and `cur` holds the current session in reverse order; a
gap strictly exceeding the threshold closes the current session. -/
def sessionScan (T : Int) (prev : Int) (cur : List Int) : List Int → List (List Int)
  | [] => [cur.reverse]
  | t :: rest =>
      if t - prev > T then
        cur.reverse :: sessionScan T t [t] rest
      else
        sessionScan T t (t :: cur) rest

/-- Modelled from the spec: `sessionsFor` on the timestamp sequence of
one collector, ordered ascending (section 4.4).  An empty event list
yields no session. -/
def sessionsFor (T : Int) : List Int → List (List Int)
  | [] => []
  | t :: rest => sessionScan T t [t] rest

/-- Within-session check: every consecutive gap is at most `T`. -/
def gapsWithin (T : Int) : List Int → Bool
  | [] => true
  | [_] => true
  | a :: b :: rest => decide (b - a ≤ T) && gapsWithin T (b :: rest)

/-- Reversed-list variant of `gapsWithin`, used for the scan
accumulator which holds the current session in reverse order. -/
def revGaps (T : Int) : List Int → Bool
  | [] => true
  | [_] => true
  | a :: b :: rest => decide (a - b ≤ T) && revGaps T (b :: rest)

/-- Between-session check: the gap from the last event of one session
to the first event of the next strictly exceeds `T`. -/
def sessionBreaks (T : Int) : List (List Int) → Bool
  | [] => true
  | [_] => true
  | s1 :: s2 :: rest =>
      (match s1.getLast?, s2.head? with
        | some a, some b => decide (b - a > T)
        | _, _ => false) && sessionBreaks T (s2 :: rest)

end Core

/-! ## The dashboard frontend script, second iteration
(src/unnamed/part_001)

Instants are modelled as integer minutes since an arbitrary epoch,
except in `prettyPrintTimeDifference` and `sessionDuration` where the
source works in milliseconds.  A parsed JavaScript Date is an
`Option Int`: `none` models an invalid date (NaN). -/

namespace Part001

/-- Models Date.getHours() of the instant `t` under the fixed timezone
offset `tzOff` (minutes, UTC minus local).  Euclidean division and
remainder coincide with the floor semantics of JavaScript Date
arithmetic for the positive divisors 60 and 24. -/
def jsGetHours (t tzOff : Int) : Int :=
  ((t - tzOff) / 60) % 24

/-- Models the calendar-day part of Date.toISOString() (a UTC date) as
a UTC day number. -/
def jsUTCDate (t : Int) : Int :=
  t / 1440

/-- Models the local calendar day of an instant as a local day number.
The source compares Date.getDate() (day of month) of instants less
than one day apart, where day-of-month equality coincides with
day-number equality. -/
def jsLocalDate (t tzOff : Int) : Int :=
  (t - tzOff) / 1440

/-- Models `startOfCustomDay`: the instant of the most recent local
midnight of `now`, i.e. setHours(0, 0, 0, 0). -/
def startOfCustomDay (now tzOff : Int) : Int :=
  jsLocalDate now tzOff * 1440 + tzOff

/-- Models the `formattedHour` computation: 12-hour clock label with
AM/PM, where hour 0 renders as 12. -/
def formatHour12 (hours : Int) : String :=
  let ampm := if hours ≥ 12 then "PM" else "AM"
  let h := hours % 12
  let h2 := if h = 0 then 12 else h
  toString h2 ++ ampm

/-- One element of the `customDayHours` array built by
`mapHourlyEventsToLocalTime`. -/
structure HourSlot where
  formattedHour : String
  hour : Int
  date : Int
  count : Int
  isCurrent : Bool
deriving DecidableEq

/-- The 24 hour slots of the displayed local day, one per hour from
local midnight, with fields exactly as the source builds them:
`hour` from getHours (local), `date` from toISOString (UTC), count 0,
and the current-hour flag. -/
def customDayHours (now tzOff : Int) : List HourSlot :=
  (List.range 24).map (fun (index : Nat) =>
    let hourDate := startOfCustomDay now tzOff + (index : Int) * 60
    { formattedHour := formatHour12 (jsGetHours hourDate tzOff)
      hour := jsGetHours hourDate tzOff
      date := jsUTCDate hourDate
      count := 0
      isCurrent := decide (jsGetHours now tzOff = jsGetHours hourDate tzOff) &&
        decide (jsLocalDate now tzOff = jsLocalDate hourDate tzOff) })

/-- The forEach body of `mapHourlyEventsToLocalTime` for one event
(bucket key instant, count).  In the source `eventDateLocal` is
utc.getTime() plus utc.getTimezoneOffset()*60000 plus
now.getTimezoneOffset()*(-60000); in the fixed-offset model both
offsets are `tzOff`, giving key + tzOff - tzOff.  The slot matched by
findIndex has the event UTC date as its `date` and the event local
hour as its `hour`; a match adds the event count to that slot only. -/
def hourStep (tzOff : Int) (hoursAcc : List HourSlot) (event : Int × Int) : List HourSlot :=
  let eventDateUTC := event.1
  let eventDateLocal := eventDateUTC + tzOff - tzOff
  match hoursAcc.findIdx? (fun hour =>
      decide (hour.date = jsUTCDate eventDateLocal) &&
      decide (hour.hour = jsGetHours eventDateLocal tzOff)) with
  | some matchingHourIndex =>
      hoursAcc.modify (fun h => { h with count := h.count + event.2 }) matchingHourIndex
  | none => hoursAcc

/-- Models `mapHourlyEventsToLocalTime` of src/unnamed/part_001: build
the 24 local slots of the displayed day, then fold the UTC hourly
buckets into them. -/
def mapHourlyEventsToLocalTime (now tzOff : Int) (events : List (Int × Int)) : List HourSlot :=
  events.foldl (hourStep tzOff) (customDayHours now tzOff)

/-- Specification-side total, written from the words of the claim: the
count slot `i` of the displayed local day should receive, namely the
summed counts of the buckets whose key shifted by the viewer timezone
offset falls on the displayed local day at local hour `i`. -/
def bucketTotal (now tzOff : Int) (i : Nat) : List (Int × Int) → Int
  | [] => 0
  | e :: es =>
      (if jsLocalDate e.1 tzOff = jsLocalDate now tzOff ∧
          jsGetHours e.1 tzOff = (i : Int)
        then e.2 else 0) + bucketTotal now tzOff i es

/-- Models String.prototype.padStart(2, "0"). -/
def padStart2 (s : String) : String :=
  String.mk (List.replicate (2 - s.length) '0') ++ s

/-- Models `prettyPrintTimeDifference` of src/unnamed/part_001 on
parsed dates in milliseconds (`none` is an invalid date): the absolute
difference rendered as [HH, MM, SS] strings, with ["00","00","00"] on
any invalid input. -/
def prettyPrintTimeDifference (t1 t2 : Option Int) : List String :=
  match t1, t2 with
  | some date1, some date2 =>
      let totalSeconds : Nat := (date2 - date1).natAbs / 1000
      let hours := totalSeconds / 3600
      let minutes := totalSeconds % 3600 / 60
      let seconds := totalSeconds % 60
      [padStart2 (toString hours), padStart2 (toString minutes), padStart2 (toString seconds)]
  | _, _ => ["00", "00", "00"]

/-- One event of a session as the sessions renderer reads it; the
timestamp is the parsed date in milliseconds, `none` when invalid. -/
structure SessEvent where
  timestamp : Option Int
  url : String
  name : String
deriving DecidableEq

/-- Models the duration computation of `renderSessions`:
prettyPrintTimeDifference(events[0]?.timestamp,
events[events.length - 1]?.timestamp). -/
def sessionDuration (events : List SessEvent) : List String :=
  prettyPrintTimeDifference ((events[0]?).bind SessEvent.timestamp)
    ((events[events.length - 1]?).bind SessEvent.timestamp)

/-- Models `convertUtcToLocal` of src/unnamed/part_001.  The JavaScript
remainder operator truncates toward zero, which is Int.tmod; the
returned pair is (localDay, localHour). -/
def convertUtcToLocal (utcDay utcHour offset : Int) : Int × Int :=
  let localHour := utcHour - offset
  let localDay := utcDay
  if localHour < 0 then
    ((localDay + 6).tmod 7, localHour + 24)
  else if localHour ≥ 24 then
    ((localDay + 1).tmod 7, localHour - 24)
  else
    (localDay, localHour)

end Part001

/-! ## The dashboard frontend script, first file of the pair
(src/unnamed/part_000): the dom helper and the hardened hourly chart

The dom helper builds DOM nodes from a tag, an attribute map and
children; attribute values are strings or objects (style, dataset).
JavaScript numbers reaching the chart are modelled by `JSNum`: a
finite rational, NaN, or a signed infinity, with negative zero
identified with zero. -/

namespace Part000

/-- Attribute value passed to the dom helper: a string, or an object
(used for style and dataset). -/
inductive AttrValue where
  | str (s : String)
  | obj (entries : List (String × String))
deriving DecidableEq

/-- Element data of a built DOM node. -/
structure ElementData where
  tag : String
  className : Option String
  styleProps : List (String × String)
  datasetProps : List (String × String)
  attrs : List (String × String)
deriving DecidableEq

/-- A DOM node: an element carrying its data and children, or a text
node. -/
inductive DomNode where
  | element (data : ElementData) (children : List DomNode)
  | textNode (s : String)

/-- A value passed as a child to the dom helper: a DOM node, or any
other value, modelled by its string form (a non-Node child is
stringified by createTextNode). -/
inductive JsChild where
  | nodeVal (n : DomNode)
  | strVal (s : String)

/-- Test for the regular expression ^on with the i flag: the name
starts with the letters o and n in any case. -/
def startsWithOnCI (name : String) : Bool :=
  match name.data with
  | c1 :: c2 :: _ => c1.toLower == 'o' && c2.toLower == 'n'
  | _ => false

/-- Models isDangerousAttr of the dom helper. -/
def isDangerousAttr (name : String) : Bool :=
  startsWithOnCI name || name == "srcdoc" || name == "innerHTML"

/-- Case-insensitive strip of a literal pattern from the head of a
character list, returning the remainder on success. -/
def stripCI : List Char → List Char → Option (List Char)
  | [], l => some l
  | _ :: _, [] => none
  | p :: ps, c :: cs => if c.toLower == p.toLower then stripCI ps cs else none

/-- One attempted match of the regular expression
url\s*\(\s*javascript: (with the i flag) at the head of a character
list. -/
def urlJsAt (l : List Char) : Bool :=
  match stripCI ['u', 'r', 'l'] l with
  | none => false
  | some rest =>
      match rest.dropWhile Char.isWhitespace with
      | '(' :: rest2 =>
          (stripCI ['j', 'a', 'v', 'a', 's', 'c', 'r', 'i', 'p', 't', ':']
            (rest2.dropWhile Char.isWhitespace)).isSome
      | _ => false

/-- Scan for a match of the url(javascript: pattern at any position. -/
def containsUrlJsAux : List Char → Bool
  | [] => false
  | c :: rest => urlJsAt (c :: rest) || containsUrlJsAux rest

/-- Models the test of the url(javascript: regular expression on a
style value. -/
def containsUrlJs (s : String) : Bool :=
  containsUrlJsAux s.data

/-- Parse a value matching ^\d+px$ into its number. -/
def pxNumber (l : List Char) : Option Nat :=
  let ds := l.takeWhile Char.isDigit
  let rest := l.dropWhile Char.isDigit
  if ds.isEmpty then none
  else if rest = ['p', 'x'] then
    some (ds.foldl (fun n c => n * 10 + (c.toNat - 48)) 0)
  else none

/-- Models the oversized-pixel filter of the style branch: the value
matches ^\d+px$ and its number exceeds 10000. -/
def hugePx (s : String) : Bool :=
  match pxNumber s.data with
  | some n => decide (n > 10000)
  | none => false

/-- Models the dataset key filter ^[\w-]+$. -/
def isWordKey (s : String) : Bool :=
  !s.data.isEmpty && s.data.all (fun c => c.isAlphanum || c == '_' || c == '-')

/-- The string the DOM engine uses for an attribute value. -/
def stringOfAttrValue : AttrValue → String
  | AttrValue.str s => s
  | AttrValue.obj _ => "[object Object]"

/-- Whether the value is an object (the typeof check of the style and
dataset branches). -/
def isObjAttr : AttrValue → Bool
  | AttrValue.obj _ => true
  | AttrValue.str _ => false

/-- The entries of an object value. -/
def objEntries : AttrValue → List (String × String)
  | AttrValue.obj es => es
  | AttrValue.str _ => []

/-- The for-of loop body of the dom helper for one attribute entry:
skip dangerous names; class sets className; a style object sets the
filtered style properties (property assignment modelled as an append);
a dataset object sets the filtered data properties; anything else goes
through setAttribute. -/
def applyAttr (d : ElementData) (kv : String × AttrValue) : ElementData :=
  if isDangerousAttr kv.1 then d
  else if kv.1 == "class" then { d with className := some (stringOfAttrValue kv.2) }
  else if kv.1 == "style" && isObjAttr kv.2 then
    { d with styleProps := d.styleProps ++
        (objEntries kv.2).filter (fun pv => !containsUrlJs pv.2 && !hugePx pv.2) }
  else if kv.1 == "dataset" && isObjAttr kv.2 then
    { d with datasetProps := d.datasetProps ++
        (objEntries kv.2).filter (fun dv => isWordKey dv.1) }
  else { d with attrs := d.attrs ++ [(kv.1, stringOfAttrValue kv.2)] }

/-- Models the dom helper of src/unnamed/part_000: fold the attribute
entries into a fresh element, then append the children, turning every
non-Node child into a text node. -/
def dom (tag : String) (attrs : List (String × AttrValue)) (children : List JsChild) : DomNode :=
  let d := attrs.foldl applyAttr
    { tag := tag, className := none, styleProps := [], datasetProps := [], attrs := [] }
  DomNode.element d (children.map (fun child =>
    match child with
    | JsChild.nodeVal n => n
    | JsChild.strVal s => DomNode.textNode s))

/-- The attribute names the built element carries in the DOM: class
and style when present, the data- names of the dataset, and the names
set through setAttribute. -/
def attributeNames : DomNode → List String
  | DomNode.element d _ =>
      (match d.className with | some _ => ["class"] | none => []) ++
        (match d.styleProps with | [] => [] | _ :: _ => ["style"]) ++
        d.datasetProps.map (fun p => "data-" ++ p.1) ++
        d.attrs.map Prod.fst
  | DomNode.textNode _ => []

/-- The children of a built node. -/
def childrenOf : DomNode → List DomNode
  | DomNode.element _ cs => cs
  | DomNode.textNode _ => []

/-- A JavaScript number for the hourly chart: a finite rational, NaN,
or a signed infinity; negative zero is identified with zero. -/
inductive JSNum where
  | fin (q : Rat)
  | nan
  | inf
  | ninf
deriving DecidableEq

/-- JavaScript truthiness of a number: 0 and NaN are falsy. -/
def jsTruthy : JSNum → Bool
  | JSNum.fin q => decide (q ≠ 0)
  | JSNum.nan => false
  | _ => true

/-- Number.isFinite. -/
def jsIsFinite : JSNum → Bool
  | JSNum.fin _ => true
  | _ => false

/-- JavaScript addition. -/
def jsAdd : JSNum → JSNum → JSNum
  | JSNum.nan, _ => JSNum.nan
  | _, JSNum.nan => JSNum.nan
  | JSNum.inf, JSNum.ninf => JSNum.nan
  | JSNum.ninf, JSNum.inf => JSNum.nan
  | JSNum.inf, _ => JSNum.inf
  | _, JSNum.inf => JSNum.inf
  | JSNum.ninf, _ => JSNum.ninf
  | _, JSNum.ninf => JSNum.ninf
  | JSNum.fin a, JSNum.fin b => JSNum.fin (a + b)

/-- JavaScript multiplication. -/
def jsMul : JSNum → JSNum → JSNum
  | JSNum.nan, _ => JSNum.nan
  | _, JSNum.nan => JSNum.nan
  | JSNum.fin a, JSNum.fin b => JSNum.fin (a * b)
  | JSNum.inf, JSNum.inf => JSNum.inf
  | JSNum.inf, JSNum.ninf => JSNum.ninf
  | JSNum.ninf, JSNum.inf => JSNum.ninf
  | JSNum.ninf, JSNum.ninf => JSNum.inf
  | JSNum.inf, JSNum.fin b =>
      if b > 0 then JSNum.inf else if b < 0 then JSNum.ninf else JSNum.nan
  | JSNum.fin a, JSNum.inf =>
      if a > 0 then JSNum.inf else if a < 0 then JSNum.ninf else JSNum.nan
  | JSNum.ninf, JSNum.fin b =>
      if b > 0 then JSNum.ninf else if b < 0 then JSNum.inf else JSNum.nan
  | JSNum.fin a, JSNum.ninf =>
      if a > 0 then JSNum.ninf else if a < 0 then JSNum.inf else JSNum.nan

/-- JavaScript division (negative zero identified with zero). -/
def jsDiv : JSNum → JSNum → JSNum
  | JSNum.nan, _ => JSNum.nan
  | _, JSNum.nan => JSNum.nan
  | JSNum.fin a, JSNum.fin b =>
      if b = 0 then (if a > 0 then JSNum.inf else if a < 0 then JSNum.ninf else JSNum.nan)
      else JSNum.fin (a / b)
  | JSNum.fin _, JSNum.inf => JSNum.fin 0
  | JSNum.fin _, JSNum.ninf => JSNum.fin 0
  | JSNum.inf, JSNum.fin b => if b < 0 then JSNum.ninf else JSNum.inf
  | JSNum.ninf, JSNum.fin b => if b < 0 then JSNum.inf else JSNum.ninf
  | _, _ => JSNum.nan

/-- Math.max of two numbers: NaN propagates. -/
def jsMax : JSNum → JSNum → JSNum
  | JSNum.nan, _ => JSNum.nan
  | _, JSNum.nan => JSNum.nan
  | JSNum.inf, _ => JSNum.inf
  | _, JSNum.inf => JSNum.inf
  | JSNum.ninf, b => b
  | a, JSNum.ninf => a
  | JSNum.fin a, JSNum.fin b => JSNum.fin (max a b)

/-- Math.max over a spread list: fold from -Infinity, the value of
Math.max with no arguments. -/
def jsMaxList (l : List JSNum) : JSNum :=
  l.foldl jsMax JSNum.ninf

/-- Models Number(x) || 0 applied to a number. -/
def numberOr0 (x : JSNum) : JSNum :=
  if jsTruthy x then x else JSNum.fin 0

/-- Models the |0 coercion (ToInt32): truncate toward zero, wrap to a
signed 32-bit value; NaN and the infinities give 0. -/
def jsToInt32 : JSNum → Int
  | JSNum.fin q => (q.num.tdiv (q.den : Int) + 2 ^ 31) % 2 ^ 32 - 2 ^ 31
  | _ => 0

/-- One element of the customDayHours array of the part_000 script;
the count is a JavaScript number. -/
structure HourSlotN where
  formattedHour : String
  hour : Int
  date : Int
  count : JSNum
  isCurrent : Bool
deriving DecidableEq

/-- The 24 slots of the displayed local day; the time arithmetic is
the same as in part_001, so those helpers are reused. -/
def customDayHoursN (now tzOff : Int) : List HourSlotN :=
  (List.range 24).map (fun (index : Nat) =>
    let hourDate := Part001.startOfCustomDay now tzOff + (index : Int) * 60
    { formattedHour := Part001.formatHour12 (Part001.jsGetHours hourDate tzOff)
      hour := Part001.jsGetHours hourDate tzOff
      date := Part001.jsUTCDate hourDate
      count := JSNum.fin 0
      isCurrent := decide (Part001.jsGetHours now tzOff =
          Part001.jsGetHours hourDate tzOff) &&
        decide (Part001.jsLocalDate now tzOff =
          Part001.jsLocalDate hourDate tzOff) })

/-- The forEach body of the part_000 mapHourlyEventsToLocalTime; the
count added is Number(e.count) || 0. -/
def hourStepN (tzOff : Int) (hoursAcc : List HourSlotN) (event : Int × JSNum) : List HourSlotN :=
  let eventDateLocal := event.1 + tzOff - tzOff
  match hoursAcc.findIdx? (fun hour =>
      decide (hour.date = Part001.jsUTCDate eventDateLocal) &&
      decide (hour.hour = Part001.jsGetHours eventDateLocal tzOff)) with
  | some idx =>
      hoursAcc.modify (fun h => { h with count := jsAdd h.count (numberOr0 event.2) }) idx
  | none => hoursAcc

/-- Models mapHourlyEventsToLocalTime of src/unnamed/part_000. -/
def mapHourlyEventsToLocalTime (now tzOff : Int) (events : List (Int × JSNum)) : List HourSlotN :=
  events.foldl (hourStepN tzOff) (customDayHoursN now tzOff)

/-- The scale factor computed by renderHourlySummary:
max ? 150 / max : 0 over the slot counts. -/
def hourlyScaleFactor (now tzOff : Int) (data : List (Int × JSNum)) : JSNum :=
  let hours := mapHourlyEventsToLocalTime now tzOff data
  let maxCount := jsMaxList (hours.map HourSlotN.count)
  if jsTruthy maxCount then jsDiv (JSNum.fin 150) maxCount else JSNum.fin 0

/-- The bar-fill height strings of renderHourlySummary: per slot,
safeCount is the count when finite else 0, and the height is
(safeCount * scale) | 0 followed by px. -/
def barFillHeights (now tzOff : Int) (data : List (Int × JSNum)) : List String :=
  let hours := mapHourlyEventsToLocalTime now tzOff data
  let scale := hourlyScaleFactor now tzOff data
  hours.map (fun h =>
    let safeCount := if jsIsFinite h.count then h.count else JSNum.fin 0
    toString (jsToInt32 (jsMul safeCount scale)) ++ "px")

end Part000

namespace Core

/-- A collector id known in a state stays known after a collector is
added: collectors are never deleted. -/
theorem knownCollector_addCollector (s : IngestState) (c : Collector) (cid : String)
    (h : knownCollector s cid = true) : knownCollector (addCollector s c) cid = true := by
  simp only [knownCollector, addCollector, List.any_eq_true] at h ⊢
  obtain ⟨x, hx, he⟩ := h
  exact ⟨x, by simp [hx], he⟩

/-- Referential integrity is preserved by every operation. -/
theorem refIntegrity_applyOp (s : IngestState) (op : Op)
    (h : refIntegrity s = true) : refIntegrity (applyOp s op) = true := by
  cases op with
  | create c =>
      simp only [refIntegrity, List.all_eq_true, List.mem_append] at h ⊢
      intro e he
      exact knownCollector_addCollector s c e.collector_id (h e he)
  | submitOp e =>
      by_cases hk : knownCollector s e.collector_id
      · by_cases hge : s.queue.length ≥ s.capacity
        · simpa [applyOp, submit, hk, hge] using h
        · have hres : applyOp s (Op.submitOp e) = { s with queue := s.queue ++ [e] } := by
            simp [applyOp, submit, hk, hge]
          rw [hres]
          simp only [refIntegrity, List.all_eq_true, List.mem_append] at h ⊢
          intro x hx
          show knownCollector s x.collector_id = true
          rcases hx with hx | hx | hx
          · exact h x (Or.inl hx)
          · exact h x (Or.inr hx)
          · rw [List.mem_singleton] at hx
            subst hx
            exact hk
      · simpa [applyOp, submit, hk] using h
  | drainOp =>
      simp only [refIntegrity, List.all_eq_true, List.mem_append, applyOp, drain] at h ⊢
      intro e he
      have hmem : e ∈ s.events ∨ e ∈ s.queue := by
        rcases he with (he | he) | he
        · exact Or.inl he
        · exact Or.inr (List.mem_of_mem_take he)
        · exact Or.inr (List.mem_of_mem_drop he)
      exact h e hmem

/-- Referential integrity holds along any run from a state where it
holds. -/
theorem refIntegrity_foldl (ops : List Op) :
    ∀ s : IngestState, refIntegrity s = true →
      refIntegrity (ops.foldl applyOp s) = true := by
  induction ops with
  | nil => intro s h; simpa using h
  | cons op rest ih =>
      intro s h
      exact ih (applyOp s op) (refIntegrity_applyOp s op h)

end Core

/-- C1 (counterexample): contrary to the claim, the persisted schema
does not declare events.collector_id as referencing collectors.id: the
events CREATE TABLE in the migration carries no REFERENCES clause and
no FOREIGN KEY constraint. -/
theorem c1_schema_counterexample :
    Schema.declaresReference Schema.events "collector_id" "collectors" "id" = false := by
  decide

/-- C1 (amended): every row of the events table, and every buffered
event, has a collector_id equal to the id of some row of the collectors
table, in every state reachable from the empty store — the invariant is
maintained purely by ingestion-time validation (modelled from the
spec), not by a schema-level foreign key, which the migration does not
declare. -/
theorem c1_referential_integrity (cap : Nat) (ops : List Core.Op) :
    Core.refIntegrity (Core.run cap ops) = true := by
  exact Core.refIntegrity_foldl ops (Core.initial cap) rfl

/-- C2: when the buffered-event count equals the configured capacity,
submitting a further (otherwise admissible) event returns Dropped and
leaves the buffered count unchanged; moreover a submit never takes the
buffered count above the capacity. -/
theorem c2_queue_capacity :
    (∀ (s : Core.IngestState) (e : Core.Event),
        Core.knownCollector s e.collector_id = true →
        s.queue.length = s.capacity →
        (Core.submit s e).1 = Core.SubmitResult.dropped ∧
          (Core.submit s e).2.queue.length = s.queue.length) ∧
    (∀ (s : Core.IngestState) (e : Core.Event),
        s.queue.length ≤ s.capacity →
        (Core.submit s e).2.queue.length ≤ s.capacity) := by
  constructor
  · intro s e hk hfull
    simp [Core.submit, hk, hfull]
  · intro s e hle
    by_cases hk : Core.knownCollector s e.collector_id
    · by_cases hge : s.queue.length ≥ s.capacity
      · simpa [Core.submit, hk, hge] using hle
      · have hres : (Core.submit s e).2 = { s with queue := s.queue ++ [e] } := by
          simp [Core.submit, hk, hge]
        rw [hres]
        show (s.queue ++ [e]).length ≤ s.capacity
        have hlen : (s.queue ++ [e]).length = s.queue.length + 1 := by simp
        omega
    · simpa [Core.submit, hk] using hle

/-- C2 witness: a concrete queue at capacity drops a further submit and
keeps the buffered count at the capacity. -/
theorem c2_queue_capacity_witness :
    (Core.submit
        { collectors := [{ id := "c1", origin := "o", country := "", city := "",
                           os := none, browser := none, timestamp := 0 }]
          events := []
          queue := []
          capacity := 0 }
        { id := "e1", url := "u", referrer := none, name := "visit",
          timestamp := 1, collector_id := "c1" }).1 = Core.SubmitResult.dropped ∧
      (Core.submit
        { collectors := [{ id := "c1", origin := "o", country := "", city := "",
                           os := none, browser := none, timestamp := 0 }]
          events := []
          queue := []
          capacity := 0 }
        { id := "e1", url := "u", referrer := none, name := "visit",
          timestamp := 1, collector_id := "c1" }).2.queue.length = 0 := by
  exact c2_queue_capacity.1 _ _ (by decide) (by decide)

/-- C3: with an allow-listed origin, a failed geolocation lookup never
makes collector creation fail — the collector is still created, with
country and city stored empty. -/
theorem c3_geo_failure_nonfatal (allowlist : List String)
    (origin clientAddress userAgent : String)
    (geo : String → Option (String × String))
    (uaParse : String → Option String × Option String)
    (newId : String) (now : Int)
    (hallow : allowlist.contains origin = true)
    (hgeo : geo clientAddress = none) :
    Core.createCollector allowlist origin clientAddress userAgent geo uaParse newId now =
      Except.ok
        { id := newId, origin := origin, country := "", city := "",
          os := (uaParse userAgent).1, browser := (uaParse userAgent).2,
          timestamp := now } := by
  have hmem : origin ∈ allowlist := by simpa using hallow
  simp [Core.createCollector, hmem, hgeo]

/-- C3 witness: a concrete creation with failing geolocation succeeds
with empty geo fields. -/
theorem c3_geo_failure_nonfatal_witness :
    Core.createCollector ["https://a.example"] "https://a.example" "203.0.113.9" "UA"
        (fun _ => none) (fun _ => (none, none)) "id1" 0 =
      Except.ok
        { id := "id1", origin := "https://a.example", country := "", city := "",
          os := none, browser := none, timestamp := 0 } := by
  exact c3_geo_failure_nonfatal _ _ _ _ _ _ _ _ (by decide) rfl

/-- C5: the period percentage change equals
((current - previous) / previous) * 100 when the previous count is
nonzero (so previous 10 and current 15 yield 50), equals 0 when both
counts are 0, and is the capped positive-infinite increase when only
the previous count is 0. -/
theorem c5_percentage_change :
    (∀ countPrevious countCurrent : Nat, countPrevious ≠ 0 →
        Core.percentageChange countPrevious countCurrent =
          Core.PctChange.finite
            ((((countCurrent : Rat) - (countPrevious : Rat)) / (countPrevious : Rat)) * 100)) ∧
    Core.percentageChange 10 15 = Core.PctChange.finite 50 ∧
    Core.percentageChange 0 0 = Core.PctChange.finite 0 ∧
    (∀ countCurrent : Nat, countCurrent ≠ 0 →
        Core.percentageChange 0 countCurrent = Core.PctChange.cappedInfinite) := by
  refine ⟨?_, ?_, ?_, ?_⟩
  · intro p c hp
    simp [Core.percentageChange, hp]
  · norm_num [Core.percentageChange]
  · simp [Core.percentageChange]
  · intro c hc
    simp [Core.percentageChange, hc]

/-- C5 witness: concrete instances of the nonzero-previous and
zero-previous cases. -/
theorem c5_percentage_change_witness :
    Core.percentageChange 2 3 =
        Core.PctChange.finite ((((3 : Rat) - (2 : Rat)) / (2 : Rat)) * 100) ∧
      Core.percentageChange 0 7 = Core.PctChange.cappedInfinite :=
  ⟨c5_percentage_change.1 2 3 (by decide), c5_percentage_change.2.2.2 7 (by decide)⟩

namespace Core

/-- Flattening the sessions produced by the scan recovers the
accumulator followed by the remaining events. -/
theorem sessionScan_join (T : Int) :
    ∀ (rest : List Int) (prev : Int) (cur : List Int),
      (sessionScan T prev cur rest).flatten = cur.reverse ++ rest := by
  intro rest
  induction rest with
  | nil => intro prev cur; simp [sessionScan]
  | cons t rest ih =>
      intro prev cur
      by_cases hgap : t - prev > T
      · simp [sessionScan, hgap, ih]
      · simp [sessionScan, hgap, ih]

/-- Session reconstruction loses and duplicates no event and keeps
order. -/
theorem sessionsFor_join (T : Int) (evs : List Int) :
    (sessionsFor T evs).flatten = evs := by
  cases evs with
  | nil => simp [sessionsFor]
  | cons t rest => simp [sessionsFor, sessionScan_join]

/-- With a nonempty accumulator, every session the scan emits is
nonempty. -/
theorem sessionScan_ne_nil (T : Int) :
    ∀ (rest : List Int) (prev : Int) (cur : List Int), cur ≠ [] →
      ∀ s ∈ sessionScan T prev cur rest, s ≠ [] := by
  intro rest
  induction rest with
  | nil =>
      intro prev cur hc s hs
      simp [sessionScan] at hs
      subst hs
      simpa using hc
  | cons t rest ih =>
      intro prev cur hc s hs
      by_cases hgap : t - prev > T
      · simp only [sessionScan, hgap, if_pos, List.mem_cons] at hs
        rcases hs with hs | hs
        · subst hs; simpa using hc
        · exact ih t [t] (by simp) s hs
      · exact ih t (t :: cur) (by simp) s (by simpa [sessionScan, hgap] using hs)

/-- Appending one element on the right of a within-session gap check
splits into the check on the prefix and the last gap. -/
theorem gapsWithin_append_last (T : Int) :
    ∀ (l : List Int) (b : Int),
      gapsWithin T (l ++ [b]) =
        (gapsWithin T l &&
          match l.getLast? with
          | some a => decide (b - a ≤ T)
          | none => true) := by
  intro l
  induction l with
  | nil => intro b; simp [gapsWithin]
  | cons a l ih =>
      intro b
      cases l with
      | nil => simp [gapsWithin]
      | cons c l2 =>
          have ih2 := ih b
          rw [List.cons_append] at ih2
          simp [gapsWithin, ih2, List.getLast?_cons_cons, Bool.and_assoc]

/-- The within-session check of a reversed list equals the reversed
check of the list. -/
theorem gapsWithin_reverse (T : Int) :
    ∀ l : List Int, gapsWithin T l.reverse = revGaps T l := by
  intro l
  induction l with
  | nil => simp [gapsWithin, revGaps]
  | cons a l ih =>
      rw [List.reverse_cons, gapsWithin_append_last, ih]
      cases l with
      | nil => simp [revGaps]
      | cons c l2 =>
          rw [List.getLast?_reverse]
          simp [revGaps, Bool.and_comm]

/-- Every session the scan emits passes the within-session gap check:
the scan never splits at a gap of at most the threshold. -/
theorem sessionScan_gaps (T : Int) :
    ∀ (rest : List Int) (prev : Int) (cur : List Int),
      revGaps T cur = true → cur.head? = some prev →
      ∀ s ∈ sessionScan T prev cur rest, gapsWithin T s = true := by
  intro rest
  induction rest with
  | nil =>
      intro prev cur hg _ s hs
      simp [sessionScan] at hs
      subst hs
      rw [gapsWithin_reverse]
      exact hg
  | cons t rest ih =>
      intro prev cur hg hh s hs
      by_cases hgap : t - prev > T
      · simp only [sessionScan, hgap, if_pos, List.mem_cons] at hs
        rcases hs with hs | hs
        · subst hs; rw [gapsWithin_reverse]; exact hg
        · exact ih t [t] (by simp [revGaps]) (by simp) s hs
      · have hs2 : s ∈ sessionScan T t (t :: cur) rest := by
          simpa [sessionScan, hgap] using hs
        refine ih t (t :: cur) ?_ (by simp) s hs2
        cases cur with
        | nil => simp at hh
        | cons p cs =>
            simp only [List.head?_cons, Option.some.injEq] at hh
            subst hh
            simp only [revGaps, Bool.and_eq_true, decide_eq_true_eq]
            exact ⟨by omega, hg⟩

/-- The scan always returns at least one session, and the first event
of the first session is the oldest accumulated event. -/
theorem sessionScan_head (T : Int) :
    ∀ (rest : List Int) (prev : Int) (cur : List Int), cur ≠ [] →
      ∃ s tail, sessionScan T prev cur rest = s :: tail ∧ s.head? = cur.getLast? := by
  intro rest
  induction rest with
  | nil =>
      intro prev cur _
      exact ⟨cur.reverse, [], by simp [sessionScan], by simp⟩
  | cons t rest ih =>
      intro prev cur hc
      by_cases hgap : t - prev > T
      · exact ⟨cur.reverse, sessionScan T t [t] rest, by simp [sessionScan, hgap], by simp⟩
      · obtain ⟨s, tail, heq, hhead⟩ := ih t (t :: cur) (by simp)
        refine ⟨s, tail, by simpa [sessionScan, hgap] using heq, ?_⟩
        rw [hhead]
        cases cur with
        | nil => exact absurd rfl hc
        | cons p cs => rw [List.getLast?_cons_cons]

/-- Every split the scan makes is at a gap strictly exceeding the
threshold. -/
theorem sessionScan_breaks (T : Int) :
    ∀ (rest : List Int) (prev : Int) (cur : List Int),
      cur.head? = some prev →
      sessionBreaks T (sessionScan T prev cur rest) = true := by
  intro rest
  induction rest with
  | nil => intro prev cur _; simp [sessionScan, sessionBreaks]
  | cons t rest ih =>
      intro prev cur hh
      by_cases hgap : t - prev > T
      · obtain ⟨s2, tail, heq, hhead⟩ := sessionScan_head T rest t [t] (by simp)
        have hbr : sessionBreaks T (sessionScan T t [t] rest) = true := ih t [t] (by simp)
        rw [heq] at hbr
        have hlast : (cur.reverse).getLast? = some prev := by
          rw [List.getLast?_reverse]; exact hh
        simp only [sessionScan, hgap, if_pos]
        rw [heq]
        simp only [sessionBreaks, hlast]
        have ht : s2.head? = some t := by simpa using hhead
        simp [ht, hgap, hbr]
      · have hstep : sessionScan T prev cur (t :: rest) = sessionScan T t (t :: cur) rest := by
          simp [sessionScan, hgap]
        rw [hstep]
        exact ih t (t :: cur) (by simp)

end Core

/-- C4: on a timestamp-ascending event sequence, session reconstruction
starts a new session exactly at each consecutive gap strictly exceeding
the threshold T: the sessions flatten back to the input, every session
is nonempty with all internal gaps at most T, and consecutive sessions
are separated by a gap strictly exceeding T; in particular timestamps
t, t+5min, t+40min with T = 30min yield exactly the two sessions
[t, t+5] and [t+40]. -/
theorem c4_session_reconstruction :
    (∀ t : Int, Core.sessionsFor 30 [t, t + 5, t + 40] = [[t, t + 5], [t + 40]]) ∧
    (∀ (T : Int) (evs : List Int),
        (Core.sessionsFor T evs).flatten = evs ∧
        (∀ s ∈ Core.sessionsFor T evs, s ≠ [] ∧ Core.gapsWithin T s = true) ∧
        Core.sessionBreaks T (Core.sessionsFor T evs) = true) := by
  constructor
  · intro t
    have h1 : ¬ (t + 5 - t > 30) := by omega
    have h2 : t + 40 - (t + 5) > 30 := by omega
    simp [Core.sessionsFor, Core.sessionScan, h1, h2]
  · intro T evs
    refine ⟨Core.sessionsFor_join T evs, ?_, ?_⟩
    · intro s hs
      cases evs with
      | nil => simp [Core.sessionsFor] at hs
      | cons t rest =>
          exact ⟨Core.sessionScan_ne_nil T rest t [t] (by simp) s hs,
            Core.sessionScan_gaps T rest t [t] (by simp [Core.revGaps]) (by simp) s hs⟩
    · cases evs with
      | nil => simp [Core.sessionsFor, Core.sessionBreaks]
      | cons t rest => exact Core.sessionScan_breaks T rest t [t] (by simp)

/-- C4 witness: the concrete three-event example splits into the two
expected sessions, and the first session passes the gap check. -/
theorem c4_session_reconstruction_witness :
    Core.sessionsFor 30 [(0 : Int), 5, 40] = [[0, 5], [40]] ∧
      Core.gapsWithin 30 [(0 : Int), 5] = true :=
  ⟨c4_session_reconstruction.1 0,
    ((c4_session_reconstruction.2 30 [0, 5, 40]).2.1 [0, 5] (by decide)).2⟩

/-- C6: a session whose events list contains exactly one event has
zero duration — the first and last event timestamps coincide, and the
dashboard duration computation on equal valid timestamps renders
["00", "00", "00"]. -/
theorem c6_single_event_zero_duration (e : Part001.SessEvent) (m : Int)
    (h : e.timestamp = some m) :
    Part001.sessionDuration [e] = ["00", "00", "00"] ∧
      Part001.prettyPrintTimeDifference (some m) (some m) = ["00", "00", "00"] := by
  have hp : Part001.prettyPrintTimeDifference (some m) (some m) = ["00", "00", "00"] := by
    simp only [Part001.prettyPrintTimeDifference, sub_self]
    decide
  refine ⟨?_, hp⟩
  simp only [Part001.sessionDuration, List.length_singleton]
  simpa [h] using hp

/-- C6 witness: a concrete one-event session has duration
["00", "00", "00"]. -/
theorem c6_single_event_zero_duration_witness :
    Part001.sessionDuration
        [{ timestamp := some 1700000000000, url := "u", name := "visit" }] =
      ["00", "00", "00"] :=
  (c6_single_event_zero_duration
    { timestamp := some 1700000000000, url := "u", name := "visit" }
    1700000000000 rfl).1

namespace Part001

/-- Evaluation of convertUtcToLocal with the truncating remainder
replaced by the euclidean remainder, valid for a nonnegative day. -/
theorem convertUtcToLocal_eq (d h off : Int) (hd : 0 ≤ d) :
    convertUtcToLocal d h off =
      if h - off < 0 then ((d + 6) % 7, h - off + 24)
      else if h - off ≥ 24 then ((d + 1) % 7, h - off - 24)
      else (d, h - off) := by
  simp only [convertUtcToLocal]
  split_ifs with h1 h2
  · rw [Int.tmod_eq_emod (by omega) (by norm_num)]
  · rw [Int.tmod_eq_emod (by omega) (by norm_num)]
  · rfl

end Part001

/-- C9: convertUtcToLocal is self-inverse under offset negation: for a
day in 0..6, an hour in 0..23 and an offset with absolute value at
most 23, applying it and then applying it again to the result with the
negated offset returns the original pair, and the intermediate result
has day in 0..6 and hour in 0..23. -/
theorem c9_convert_roundtrip (d h off : Int)
    (hd : 0 ≤ d ∧ d ≤ 6) (hh : 0 ≤ h ∧ h ≤ 23) (hoff : -23 ≤ off ∧ off ≤ 23) :
    Part001.convertUtcToLocal (Part001.convertUtcToLocal d h off).1
        (Part001.convertUtcToLocal d h off).2 (-off) = (d, h) ∧
      0 ≤ (Part001.convertUtcToLocal d h off).1 ∧
      (Part001.convertUtcToLocal d h off).1 ≤ 6 ∧
      0 ≤ (Part001.convertUtcToLocal d h off).2 ∧
      (Part001.convertUtcToLocal d h off).2 ≤ 23 := by
  obtain ⟨hd0, hd6⟩ := hd
  obtain ⟨hh0, hh23⟩ := hh
  obtain ⟨ho1, ho2⟩ := hoff
  rw [Part001.convertUtcToLocal_eq d h off hd0]
  by_cases hc1 : h - off < 0
  · rw [if_pos hc1]
    dsimp only
    rw [Part001.convertUtcToLocal_eq _ _ _ (by omega)]
    rw [if_neg (by omega), if_pos (by omega)]
    refine ⟨?_, by omega, by omega, by omega, by omega⟩
    simp only [Prod.mk.injEq]
    exact ⟨by omega, by omega⟩
  · by_cases hc2 : h - off ≥ 24
    · rw [if_neg hc1, if_pos hc2]
      dsimp only
      rw [Part001.convertUtcToLocal_eq _ _ _ (by omega)]
      rw [if_pos (by omega)]
      refine ⟨?_, by omega, by omega, by omega, by omega⟩
      simp only [Prod.mk.injEq]
      exact ⟨by omega, by omega⟩
    · rw [if_neg hc1, if_neg hc2]
      dsimp only
      rw [Part001.convertUtcToLocal_eq _ _ _ hd0]
      rw [if_neg (by omega), if_neg (by omega)]
      refine ⟨?_, by omega, by omega, by omega, by omega⟩
      simp only [Prod.mk.injEq]
      exact ⟨trivial, by omega⟩

/-- C9 witness: the roundtrip at day 3, hour 5, offset -7. -/
theorem c9_convert_roundtrip_witness :
    Part001.convertUtcToLocal (Part001.convertUtcToLocal 3 5 (-7)).1
        (Part001.convertUtcToLocal 3 5 (-7)).2 7 = (3, 5) ∧
      0 ≤ (Part001.convertUtcToLocal 3 5 (-7)).1 ∧
      (Part001.convertUtcToLocal 3 5 (-7)).1 ≤ 6 ∧
      0 ≤ (Part001.convertUtcToLocal 3 5 (-7)).2 ∧
      (Part001.convertUtcToLocal 3 5 (-7)).2 ≤ 23 :=
  c9_convert_roundtrip 3 5 (-7) (by decide) (by decide) (by decide)

namespace Part001

/-- Modifying only the count of a slot leaves the (date, hour) view of
every position unchanged. -/
theorem dateHour_modify (acc : List HourSlot) (idx i : Nat) (c : Int) :
    ((acc.modify (fun h => { h with count := h.count + c }) idx)[i]?).map
        (fun h => (h.date, h.hour)) =
      (acc[i]?).map (fun h => (h.date, h.hour)) := by
  rw [List.getElem?_modify]
  cases hacc : acc[i]? with
  | none => rfl
  | some a =>
      simp only [Option.map_some]
      split <;> rfl

/-- One fold step leaves the (date, hour) view of every position
unchanged. -/
theorem hourStep_dateHour (tzOff : Int) (acc : List HourSlot) (e : Int × Int) (i : Nat) :
    ((hourStep tzOff acc e)[i]?).map (fun h => (h.date, h.hour)) =
      (acc[i]?).map (fun h => (h.date, h.hour)) := by
  simp only [hourStep]
  split
  · exact dateHour_modify _ _ _ _
  · rfl

/-- The whole fold leaves the (date, hour) view of every position
unchanged. -/
theorem foldl_hourStep_dateHour (tzOff : Int) :
    ∀ (events : List (Int × Int)) (acc : List HourSlot) (i : Nat),
      ((events.foldl (hourStep tzOff) acc)[i]?).map (fun h => (h.date, h.hour)) =
        (acc[i]?).map (fun h => (h.date, h.hour)) := by
  intro events
  induction events with
  | nil => intro acc i; rfl
  | cons e es ih =>
      intro acc i
      rw [List.foldl_cons, ih, hourStep_dateHour]

/-- Two slot lists with the same (date, hour) view at every position
give the same findIndex result for the date-and-hour predicate. -/
theorem findIdx?_dateHour_congr (D H : Int) :
    ∀ (l₁ l₂ : List HourSlot) (s : Nat),
      (∀ i : Nat, (l₁[i]?).map (fun h => (h.date, h.hour)) =
        (l₂[i]?).map (fun h => (h.date, h.hour))) →
      l₁.findIdx? (fun hour => decide (hour.date = D) && decide (hour.hour = H)) s =
        l₂.findIdx? (fun hour => decide (hour.date = D) && decide (hour.hour = H)) s := by
  intro l₁
  induction l₁ with
  | nil =>
      intro l₂ s hsh
      cases l₂ with
      | nil => rfl
      | cons b l₂ => exact absurd (hsh 0) (by simp)
  | cons a l₁ ih =>
      intro l₂ s hsh
      cases l₂ with
      | nil => exact absurd (hsh 0) (by simp)
      | cons b l₂ =>
          have h0 : a.date = b.date ∧ a.hour = b.hour := by
            have := hsh 0
            simpa [Prod.ext_iff] using this
          rw [List.findIdx?_cons, List.findIdx?_cons, h0.1, h0.2]
          have htail : ∀ i : Nat, (l₁[i]?).map (fun h => (h.date, h.hour)) =
              (l₂[i]?).map (fun h => (h.date, h.hour)) := by
            intro i
            have := hsh (i + 1)
            simpa using this
          rw [ih l₂ (s + 1) htail]

/-- findIdx? over a mapped list is findIdx? of the composed predicate. -/
theorem findIdx?_map_eq {α β : Type} (f : α → β) (p : β → Bool) :
    ∀ (l : List α) (s : Nat),
      (l.map f).findIdx? p s = l.findIdx? (fun a => p (f a)) s := by
  intro l
  induction l with
  | nil => intro s; rfl
  | cons a l ih =>
      intro s
      rw [List.map_cons, List.findIdx?_cons, List.findIdx?_cons, ih]

/-- findIdx? of a predicate that is true at exactly one position. -/
theorem findIdx?_unique {α : Type} (p : α → Bool) :
    ∀ (l : List α) (i s : Nat), i < l.length →
      (∀ j (hj : j < l.length), (p (l.get ⟨j, hj⟩) = true ↔ j = i)) →
      l.findIdx? p s = some (s + i) := by
  intro l
  induction l with
  | nil => intro i s hi _; simp at hi
  | cons a l ih =>
      intro i s hi hq
      rw [List.findIdx?_cons]
      by_cases hpa : p a = true
      · have h0 : 0 = i := (hq 0 (by simp)).mp hpa
        rw [if_pos hpa, ← h0]
        rfl
      · have hi0 : i ≠ 0 := by
          intro h
          exact hpa ((hq 0 (by simp)).mpr h.symm)
        obtain ⟨j, rfl⟩ : ∃ j, i = j + 1 := ⟨i - 1, by omega⟩
        rw [if_neg hpa]
        have hqt : ∀ k (hk : k < l.length), (p (l.get ⟨k, hk⟩) = true ↔ k = j) := by
          intro k hk
          have := hq (k + 1) (by simpa using Nat.succ_lt_succ hk)
          simpa using this
        rw [ih j (s + 1) (by simpa using hi) hqt]
        congr 1
        omega

/-- The slot at index `i` of the displayed day has local hour `i`. -/
theorem slot_hour (now tzOff : Int) (i : Nat) (hi : i < 24) :
    jsGetHours (startOfCustomDay now tzOff + (i : Int) * 60) tzOff = (i : Int) := by
  unfold jsGetHours startOfCustomDay jsLocalDate
  omega

/-- With a whole-hour offset and an hour-aligned key on the displayed
local day, the slot at the key local hour has the key UTC date. -/
theorem slot_date_eq (now tzOff key : Int) (hz : tzOff % 60 = 0) (hk : key % 60 = 0)
    (hd : jsLocalDate key tzOff = jsLocalDate now tzOff) :
    jsUTCDate (startOfCustomDay now tzOff + (key - tzOff) / 60 % 24 * 60) = jsUTCDate key := by
  unfold jsUTCDate startOfCustomDay jsLocalDate at *
  omega

/-- With a whole-hour offset and an hour-aligned key outside the
displayed local day, no slot matches: the slot at the key local hour
has a different UTC date. -/
theorem slot_date_ne (now tzOff key : Int) (hz : tzOff % 60 = 0) (hk : key % 60 = 0)
    (hd : jsLocalDate key tzOff ≠ jsLocalDate now tzOff) :
    jsUTCDate (startOfCustomDay now tzOff + (key - tzOff) / 60 % 24 * 60) ≠ jsUTCDate key := by
  unfold jsUTCDate startOfCustomDay jsLocalDate at *
  omega

end Part001

namespace Part001

/-- Characterization of the findIndex call of
`mapHourlyEventsToLocalTime`, for a whole-hour timezone offset and an
hour-aligned UTC bucket key: the first matching slot is the one at the
key local hour when the key falls on the displayed local day, and no
slot matches otherwise. -/
theorem findIdx?_customDayHours (now tzOff key : Int)
    (hz : tzOff % 60 = 0) (hk : key % 60 = 0) :
    (customDayHours now tzOff).findIdx?
        (fun hour => decide (hour.date = jsUTCDate key) &&
          decide (hour.hour = jsGetHours key tzOff)) =
      (if jsLocalDate key tzOff = jsLocalDate now tzOff
        then some (jsGetHours key tzOff).toNat
        else none) := by
  have hH0 : 0 ≤ jsGetHours key tzOff := by unfold jsGetHours; omega
  have hH24 : jsGetHours key tzOff < 24 := by unfold jsGetHours; omega
  have hHdef : jsGetHours key tzOff = (key - tzOff) / 60 % 24 := rfl
  unfold customDayHours
  rw [findIdx?_map_eq]
  by_cases hdate : jsLocalDate key tzOff = jsLocalDate now tzOff
  · rw [if_pos hdate]
    have hlen : (jsGetHours key tzOff).toNat < (List.range 24).length := by
      rw [List.length_range]; omega
    refine (findIdx?_unique _ (List.range 24) ((jsGetHours key tzOff).toNat) 0
      hlen ?_).trans (by rw [Nat.zero_add])
    intro j hj
    have hjlt : j < 24 := by simpa using hj
    simp only [List.get_range]
    rw [slot_hour now tzOff j hjlt]
    simp only [Bool.and_eq_true, decide_eq_true_eq]
    constructor
    · rintro ⟨_, hhour⟩
      omega
    · intro hji
      subst hji
      have hcast : (((jsGetHours key tzOff).toNat : Nat) : Int) = jsGetHours key tzOff := by
        omega
      refine ⟨?_, hcast⟩
      rw [hcast, hHdef]
      exact slot_date_eq now tzOff key hz hk hdate
  · rw [if_neg hdate]
    apply List.findIdx?_eq_none_iff.mpr
    intro j hjmem
    have hjlt : j < 24 := List.mem_range.mp hjmem
    dsimp only
    rw [slot_hour now tzOff j hjlt]
    by_cases hhour : (j : Int) = jsGetHours key tzOff
    · have hne : jsUTCDate (startOfCustomDay now tzOff + (j : Int) * 60) ≠ jsUTCDate key := by
        rw [hhour, hHdef]
        exact slot_date_ne now tzOff key hz hk hdate
      simp [hne]
    · simp [hhour]

end Part001

namespace Part001

/-- Unfolding of one fold step: in the fixed-offset model the two
getTimezoneOffset corrections cancel, so the findIndex key is the
bucket key itself. -/
theorem hourStep_eq (tzOff : Int) (acc : List HourSlot) (e : Int × Int) :
    hourStep tzOff acc e =
      (match acc.findIdx? (fun hour =>
          decide (hour.date = jsUTCDate e.1) &&
            decide (hour.hour = jsGetHours e.1 tzOff)) with
        | some idx => acc.modify (fun h => { h with count := h.count + e.2 }) idx
        | none => acc) := by
  simp only [hourStep, add_sub_cancel_right]

/-- The count at a position after a count-modify at that position. -/
theorem count_modify_self (acc : List HourSlot) (i : Nat) (add c : Int)
    (hc : (acc[i]?).map HourSlot.count = some c) :
    ((acc.modify (fun h => { h with count := h.count + add }) i)[i]?).map HourSlot.count =
      some (c + add) := by
  rw [List.getElem?_modify]
  cases hacc : acc[i]? with
  | none => rw [hacc] at hc; simp at hc
  | some a =>
      rw [hacc] at hc
      simp at hc
      simp [hc]

/-- The count at a position after a count-modify at a different
position. -/
theorem count_modify_other (acc : List HourSlot) (idx i : Nat) (add c : Int)
    (hne : idx ≠ i)
    (hc : (acc[i]?).map HourSlot.count = some c) :
    ((acc.modify (fun h => { h with count := h.count + add }) idx)[i]?).map HourSlot.count =
      some c := by
  rw [List.getElem?_modify]
  cases hacc : acc[i]? with
  | none => rw [hacc] at hc; simp at hc
  | some a =>
      rw [hacc] at hc
      simp [hne, hc]

/-- Slot `i` of the freshly built day starts with count 0. -/
theorem customDayHours_count (now tzOff : Int) (i : Nat) (hi : i < 24) :
    ((customDayHours now tzOff)[i]?).map HourSlot.count = some 0 := by
  simp [customDayHours, List.getElem?_map, List.getElem?_range hi]

/-- The recursion equation of the specification-side per-slot total. -/
theorem bucketTotal_cons (now tzOff : Int) (i : Nat) (e : Int × Int)
    (es : List (Int × Int)) :
    bucketTotal now tzOff i (e :: es) =
      (if jsLocalDate e.1 tzOff = jsLocalDate now tzOff ∧
          jsGetHours e.1 tzOff = (i : Int)
        then e.2 else 0) + bucketTotal now tzOff i es := rfl

/-- Core counting argument: folding any bucket list, with a whole-hour
offset and hour-aligned keys, adds to slot `i` exactly the
specification-side total of the buckets whose shifted time is the
displayed local day at hour `i`. -/
theorem foldl_hourStep_counts (now tzOff : Int) (hz : tzOff % 60 = 0)
    (i : Nat) (hi : i < 24) :
    ∀ (events : List (Int × Int)), (∀ e ∈ events, e.1 % 60 = 0) →
      ∀ (acc : List HourSlot) (c : Int),
        (∀ j : Nat, (acc[j]?).map (fun h => (h.date, h.hour)) =
          ((customDayHours now tzOff)[j]?).map (fun h => (h.date, h.hour))) →
        (acc[i]?).map HourSlot.count = some c →
        ((events.foldl (hourStep tzOff) acc)[i]?).map HourSlot.count =
          some (c + bucketTotal now tzOff i events) := by
  intro events
  induction events with
  | nil =>
      intro _ acc c _ hc
      simpa [bucketTotal] using hc
  | cons e es ih =>
      intro hk acc c hshape hc
      have hke : e.1 % 60 = 0 := hk e (by simp)
      have hkes : ∀ x ∈ es, x.1 % 60 = 0 := fun x hx => hk x (by simp [hx])
      rw [List.foldl_cons, hourStep_eq]
      have hfind : acc.findIdx? (fun hour =>
            decide (hour.date = jsUTCDate e.1) &&
              decide (hour.hour = jsGetHours e.1 tzOff)) =
          (customDayHours now tzOff).findIdx? (fun hour =>
            decide (hour.date = jsUTCDate e.1) &&
              decide (hour.hour = jsGetHours e.1 tzOff)) :=
        findIdx?_dateHour_congr _ _ acc (customDayHours now tzOff) 0 hshape
      rw [hfind, findIdx?_customDayHours now tzOff e.1 hz hke]
      have hH0 : 0 ≤ jsGetHours e.1 tzOff := by unfold jsGetHours; omega
      by_cases hdate : jsLocalDate e.1 tzOff = jsLocalDate now tzOff
      · rw [if_pos hdate]
        have hshape2 : ∀ j : Nat,
            ((acc.modify (fun h => { h with count := h.count + e.2 })
                (jsGetHours e.1 tzOff).toNat)[j]?).map (fun h => (h.date, h.hour)) =
              ((customDayHours now tzOff)[j]?).map (fun h => (h.date, h.hour)) :=
          fun j => (dateHour_modify acc _ j e.2).trans (hshape j)
        by_cases hii : (jsGetHours e.1 tzOff).toNat = i
        · have hc2 := count_modify_self acc i e.2 c (by simpa [hii] using hc)
          rw [hii]
          have hres := ih hkes _ (c + e.2) hshape2 (by simpa [hii] using hc2)
          rw [hii] at hres
          rw [hres, bucketTotal_cons]
          have hcond : jsLocalDate e.1 tzOff = jsLocalDate now tzOff ∧
              jsGetHours e.1 tzOff = (i : Int) := ⟨hdate, by omega⟩
          rw [if_pos hcond]
          congr 1
          ring
        · have hc2 := count_modify_other acc (jsGetHours e.1 tzOff).toNat i e.2 c hii hc
          have hres := ih hkes _ c hshape2 hc2
          rw [hres, bucketTotal_cons]
          have hcond : ¬ (jsLocalDate e.1 tzOff = jsLocalDate now tzOff ∧
              jsGetHours e.1 tzOff = (i : Int)) := by
            rintro ⟨_, hhour⟩
            exact hii (by omega)
          rw [if_neg hcond]
          congr 1
          ring
      · rw [if_neg hdate]
        have hres := ih hkes acc c hshape hc
        rw [hres, bucketTotal_cons]
        have hcond : ¬ (jsLocalDate e.1 tzOff = jsLocalDate now tzOff ∧
            jsGetHours e.1 tzOff = (i : Int)) := fun hcc => hdate hcc.1
        rw [if_neg hcond]
        congr 1
        ring

/-- The fold keeps the slot-list length. -/
theorem length_foldl_hourStep (tzOff : Int) :
    ∀ (events : List (Int × Int)) (acc : List HourSlot),
      (events.foldl (hourStep tzOff) acc).length = acc.length := by
  intro events
  induction events with
  | nil => intro acc; rfl
  | cons e es ih =>
      intro acc
      rw [List.foldl_cons, ih]
      simp only [hourStep]
      split
      · exact List.length_modify _ _ _
      · rfl

end Part001

/-- C7 (amended): the dashboard converts the UTC-keyed hourly buckets
to the viewer local day in the presentation layer:
mapHourlyEventsToLocalTime always returns exactly 24 local-hour slots
and, for a viewer timezone offset that is a whole number of hours and
hour-aligned UTC bucket keys, slot i receives exactly the summed
counts of the buckets whose key shifted by the viewer offset falls on
the displayed local day at local hour i — each bucket goes to at most
one slot, and buckets whose shifted time falls outside the displayed
local day contribute to no slot.  (For fractional-hour offsets the
slot match compares UTC dates and can disagree with the shifted local
date, see the counterexample.) -/
theorem c7_hourly_local_buckets (now tzOff : Int) (events : List (Int × Int))
    (hz : tzOff % 60 = 0) (hk : ∀ e ∈ events, e.1 % 60 = 0) :
    (Part001.mapHourlyEventsToLocalTime now tzOff events).length = 24 ∧
    ∀ i : Nat, i < 24 →
      ((Part001.mapHourlyEventsToLocalTime now tzOff events)[i]?).map
          Part001.HourSlot.count =
        some (Part001.bucketTotal now tzOff i events) := by
  constructor
  · unfold Part001.mapHourlyEventsToLocalTime
    rw [Part001.length_foldl_hourStep]
    simp [Part001.customDayHours]
  · intro i hi
    unfold Part001.mapHourlyEventsToLocalTime
    have hres := Part001.foldl_hourStep_counts now tzOff hz i hi events hk
      (Part001.customDayHours now tzOff) 0 (fun _ => rfl)
      (Part001.customDayHours_count now tzOff i hi)
    simpa using hres

/-- C7 witness: a whole-hour offset viewer; the bucket at key 120 with
count 3 lands in slot 1 of the displayed day. -/
theorem c7_hourly_local_buckets_witness :
    ((Part001.mapHourlyEventsToLocalTime 720 60 [(120, 3)])[1]?).map
        Part001.HourSlot.count =
      some (Part001.bucketTotal 720 60 1 [(120, 3)]) :=
  (c7_hourly_local_buckets 720 60 [(120, 3)] (by decide) (by decide)).2 1 (by decide)

/-- C7 (counterexample): for a viewer at UTC+5:30 (offset -330
minutes), the hour-aligned bucket at key 12960 (a UTC midnight) is
added to slot 5 of the displayed local day even though its shifted
local date (day 9) is not the displayed local day (day 10) — the
source matches slots on UTC dates, so a bucket whose shifted time
falls outside the displayed local day can still contribute to a slot,
contradicting the claim. -/
theorem c7_counterexample :
    ((Part001.mapHourlyEventsToLocalTime 14790 (-330) [(12960, 1)])[5]?).map
        Part001.HourSlot.count = some 1 ∧
      Part001.jsLocalDate 12960 (-330) ≠ Part001.jsLocalDate 14790 (-330) := by
  constructor
  · decide
  · decide

namespace Part000

/-- The attribute fold of the dom helper only ever records
non-dangerous names in the setAttribute list. -/
theorem applyAttr_safe (d : ElementData) (kv : String × AttrValue)
    (hd : ∀ a ∈ d.attrs, isDangerousAttr a.1 = false) :
    ∀ a ∈ (applyAttr d kv).attrs, isDangerousAttr a.1 = false := by
  unfold applyAttr
  split_ifs with h1 h2 h3 h4
  · exact hd
  · exact hd
  · exact hd
  · exact hd
  · intro a ha
    rw [List.mem_append] at ha
    rcases ha with ha | ha
    · exact hd a ha
    · rw [List.mem_singleton] at ha
      subst ha
      simpa using h1

/-- Fold closure of the previous lemma. -/
theorem foldl_applyAttr_safe :
    ∀ (attrs : List (String × AttrValue)) (d : ElementData),
      (∀ a ∈ d.attrs, isDangerousAttr a.1 = false) →
      ∀ a ∈ (attrs.foldl applyAttr d).attrs, isDangerousAttr a.1 = false := by
  intro attrs
  induction attrs with
  | nil => intro d hd; exact hd
  | cons kv rest ih =>
      intro d hd
      rw [List.foldl_cons]
      exact ih (applyAttr d kv) (applyAttr_safe d kv hd)

/-- A data- attribute name is never dangerous. -/
theorem dataName_not_dangerous (k : String) :
    isDangerousAttr ("data-" ++ k) = false := by
  have hdata : ("data-" ++ k).data = 'd' :: 'a' :: 't' :: 'a' :: '-' :: k.data := rfl
  have hne1 : (("data-" ++ k) == "srcdoc") = false := by
    apply beq_eq_false_iff_ne.mpr
    intro h
    have hd := congrArg String.data h
    rw [hdata] at hd
    simp at hd
  have hne2 : (("data-" ++ k) == "innerHTML") = false := by
    apply beq_eq_false_iff_ne.mpr
    intro h
    have hd := congrArg String.data h
    rw [hdata] at hd
    simp at hd
  unfold isDangerousAttr startsWithOnCI
  rw [hdata, hne1, hne2]
  rfl

end Part000

/-- C8: the element built by the dom helper never carries an attribute
whose name starts with on (case-insensitive) or equals srcdoc or
innerHTML — such entries are skipped — and every child that is not
already a DOM node is appended as a text node at its position, never
parsed as HTML. -/
theorem c8_dom_safety (tag : String) (attrs : List (String × Part000.AttrValue))
    (children : List Part000.JsChild) :
    (∀ name ∈ Part000.attributeNames (Part000.dom tag attrs children),
        Part000.isDangerousAttr name = false) ∧
      (Part000.childrenOf (Part000.dom tag attrs children)).length = children.length ∧
      (∀ (i : Nat) (s : String),
        children[i]? = some (Part000.JsChild.strVal s) →
        (Part000.childrenOf (Part000.dom tag attrs children))[i]? =
          some (Part000.DomNode.textNode s)) := by
  refine ⟨?_, ?_, ?_⟩
  · intro name hname
    unfold Part000.dom Part000.attributeNames at hname
    simp only [List.mem_append] at hname
    rcases hname with ((hname | hname) | hname) | hname
    · have : name = "class" := by
        revert hname
        split <;> simp_all
      subst this
      decide
    · have : name = "style" := by
        revert hname
        split <;> simp_all
      subst this
      decide
    · rw [List.mem_map] at hname
      obtain ⟨p, _, hp⟩ := hname
      subst hp
      exact Part000.dataName_not_dangerous p.1
    · rw [List.mem_map] at hname
      obtain ⟨a, ha, hp⟩ := hname
      subst hp
      exact Part000.foldl_applyAttr_safe attrs _ (by simp) a ha
  · unfold Part000.dom Part000.childrenOf
    simp
  · intro i s hi
    unfold Part000.dom Part000.childrenOf
    rw [List.getElem?_map, hi]
    rfl

/-- C8 witness: with an onclick entry and an href entry, the built
element carries only the href attribute name, which is not dangerous,
and the string child is appended as a text node. -/
theorem c8_dom_safety_witness :
    Part000.isDangerousAttr "href" = false ∧
      (Part000.childrenOf
          (Part000.dom "a"
            [("onclick", Part000.AttrValue.str "alert(1)"),
              ("href", Part000.AttrValue.str "https://a.example")]
            [Part000.JsChild.strVal "hello"]))[0]? =
        some (Part000.DomNode.textNode "hello") :=
  ⟨(c8_dom_safety "a"
      [("onclick", Part000.AttrValue.str "alert(1)"),
        ("href", Part000.AttrValue.str "https://a.example")]
      [Part000.JsChild.strVal "hello"]).1 "href" (by decide),
    (c8_dom_safety "a"
      [("onclick", Part000.AttrValue.str "alert(1)"),
        ("href", Part000.AttrValue.str "https://a.example")]
      [Part000.JsChild.strVal "hello"]).2.2 0 "hello" rfl⟩

namespace Part000

/-- Closure of {0, Infinity, -Infinity, NaN} under the additions the
chart performs (the added value is Number(x) || 0 of a zero or
non-finite count, hence 0, Infinity or -Infinity). -/
theorem jsAdd_closed (a b : JSNum)
    (ha : a = JSNum.fin 0 ∨ a = JSNum.inf ∨ a = JSNum.ninf ∨ a = JSNum.nan)
    (hb : b = JSNum.fin 0 ∨ b = JSNum.inf ∨ b = JSNum.ninf) :
    jsAdd a b = JSNum.fin 0 ∨ jsAdd a b = JSNum.inf ∨
      jsAdd a b = JSNum.ninf ∨ jsAdd a b = JSNum.nan := by
  rcases ha with ha | ha | ha | ha <;> rcases hb with hb | hb | hb <;>
    subst ha <;> subst hb <;> simp [jsAdd]

/-- Number(x) || 0 of a zero or non-finite count is 0, Infinity or
-Infinity. -/
theorem numberOr0_closed (x : JSNum)
    (hx : x = JSNum.fin 0 ∨ x = JSNum.nan ∨ x = JSNum.inf ∨ x = JSNum.ninf) :
    numberOr0 x = JSNum.fin 0 ∨ numberOr0 x = JSNum.inf ∨ numberOr0 x = JSNum.ninf := by
  rcases hx with hx | hx | hx | hx <;> subst hx <;> simp [numberOr0, jsTruthy]

/-- Math.max keeps {0, Infinity, -Infinity, NaN}. -/
theorem jsMax_closed (a b : JSNum)
    (ha : a = JSNum.fin 0 ∨ a = JSNum.inf ∨ a = JSNum.ninf ∨ a = JSNum.nan)
    (hb : b = JSNum.fin 0 ∨ b = JSNum.inf ∨ b = JSNum.ninf ∨ b = JSNum.nan) :
    jsMax a b = JSNum.fin 0 ∨ jsMax a b = JSNum.inf ∨
      jsMax a b = JSNum.ninf ∨ jsMax a b = JSNum.nan := by
  rcases ha with ha | ha | ha | ha <;> rcases hb with hb | hb | hb | hb <;>
    subst ha <;> subst hb <;> simp [jsMax]

/-- Membership in a modified list comes from the original list, up to
the modification function. -/
theorem mem_modify {α : Type} (f : α → α) (l : List α) (n : Nat) (a : α)
    (h : a ∈ l.modify f n) : a ∈ l ∨ ∃ b ∈ l, a = f b := by
  rw [List.mem_iff_getElem?] at h
  obtain ⟨i, hi⟩ := h
  rw [List.getElem?_modify] at hi
  cases hl : l[i]? with
  | none => rw [hl] at hi; simp at hi
  | some b =>
      rw [hl] at hi
      simp only [Option.map_some, Option.some.injEq] at hi
      have hb : b ∈ l := List.mem_iff_getElem?.mpr ⟨i, hl⟩
      by_cases hni : n = i
      · rw [if_pos hni] at hi
        exact Or.inr ⟨b, hb, hi.symm⟩
      · rw [if_neg hni] at hi
        exact Or.inl (hi ▸ hb)

/-- Every slot count stays in {0, Infinity, -Infinity, NaN} along the
fold, when every incoming count is zero or non-finite. -/
theorem foldl_hourStepN_counts_closed (tzOff : Int) :
    ∀ (events : List (Int × JSNum)),
      (∀ e ∈ events, e.2 = JSNum.fin 0 ∨ e.2 = JSNum.nan ∨
        e.2 = JSNum.inf ∨ e.2 = JSNum.ninf) →
      ∀ (acc : List HourSlotN),
        (∀ h ∈ acc, h.count = JSNum.fin 0 ∨ h.count = JSNum.inf ∨
          h.count = JSNum.ninf ∨ h.count = JSNum.nan) →
        ∀ h ∈ events.foldl (hourStepN tzOff) acc,
          h.count = JSNum.fin 0 ∨ h.count = JSNum.inf ∨
            h.count = JSNum.ninf ∨ h.count = JSNum.nan := by
  intro events
  induction events with
  | nil => intro _ acc hacc; exact hacc
  | cons e es ih =>
      intro hev acc hacc
      rw [List.foldl_cons]
      apply ih (fun x hx => hev x (by simp [hx]))
      simp only [hourStepN]
      split
      · intro h hmem
        rcases mem_modify _ acc _ h hmem with hmem2 | ⟨b, hb, rfl⟩
        · exact hacc h hmem2
        · exact jsAdd_closed b.count (numberOr0 e.2) (hacc b hb)
            (numberOr0_closed e.2 (hev e (by simp)))
      · exact hacc

/-- Math.max over a list of values from {0, Infinity, -Infinity, NaN}
stays in that set. -/
theorem jsMaxList_closed (l : List JSNum)
    (hl : ∀ x ∈ l, x = JSNum.fin 0 ∨ x = JSNum.inf ∨
      x = JSNum.ninf ∨ x = JSNum.nan) :
    jsMaxList l = JSNum.fin 0 ∨ jsMaxList l = JSNum.inf ∨
      jsMaxList l = JSNum.ninf ∨ jsMaxList l = JSNum.nan := by
  unfold jsMaxList
  have hgen : ∀ (l2 : List JSNum) (a : JSNum),
      (∀ x ∈ l2, x = JSNum.fin 0 ∨ x = JSNum.inf ∨ x = JSNum.ninf ∨ x = JSNum.nan) →
      (a = JSNum.fin 0 ∨ a = JSNum.inf ∨ a = JSNum.ninf ∨ a = JSNum.nan) →
      l2.foldl jsMax a = JSNum.fin 0 ∨ l2.foldl jsMax a = JSNum.inf ∨
        l2.foldl jsMax a = JSNum.ninf ∨ l2.foldl jsMax a = JSNum.nan := by
    intro l2
    induction l2 with
    | nil => intro a _ haS; exact haS
    | cons x xs ihx =>
        intro a hx haS
        rw [List.foldl_cons]
        exact ihx _ (fun y hy => hx y (by simp [hy]))
          (jsMax_closed a x haS (hx x (by simp)))
  exact hgen l JSNum.ninf hl (by simp)

/-- ToInt32 of the number 0 is 0. -/
theorem jsToInt32_fin_zero : jsToInt32 (JSNum.fin 0) = 0 := by
  norm_num [jsToInt32]

/-- A bar-fill height computed with scale factor 0 is the string 0px,
whatever the slot count is. -/
theorem height_zero (c : JSNum) :
    toString (jsToInt32 (jsMul (if jsIsFinite c then c else JSNum.fin 0)
        (JSNum.fin 0))) ++ "px" = "0px" := by
  have hmul : jsMul (if jsIsFinite c then c else JSNum.fin 0) (JSNum.fin 0) =
      JSNum.fin 0 := by
    cases c <;> simp [jsIsFinite, jsMul]
  rw [hmul, jsToInt32_fin_zero]
  rfl

/-- The slots of the fresh day all start at count 0. -/
theorem customDayHoursN_count (now tzOff : Int) :
    ∀ h ∈ customDayHoursN now tzOff, h.count = JSNum.fin 0 := by
  intro h hmem
  unfold customDayHoursN at hmem
  rw [List.mem_map] at hmem
  obtain ⟨i, _, hi⟩ := hmem
  subst hi
  rfl

end Part000

/-- C10: the hourly bar chart height computation is division-guarded:
when every bucket count in the dataset is zero or non-finite, the
scale factor is 0 and every bar-fill height is the string 0px — no NaN
or Infinity pixel height is produced, because the 150/max division is
taken only when max is truthy and non-finite slot counts are replaced
by 0. -/
theorem c10_hourly_chart_guard (now tzOff : Int) (data : List (Int × Part000.JSNum))
    (hdata : ∀ e ∈ data, e.2 = Part000.JSNum.fin 0 ∨ e.2 = Part000.JSNum.nan ∨
      e.2 = Part000.JSNum.inf ∨ e.2 = Part000.JSNum.ninf) :
    Part000.hourlyScaleFactor now tzOff data = Part000.JSNum.fin 0 ∧
      ∀ s ∈ Part000.barFillHeights now tzOff data, s = "0px" := by
  have hcounts : ∀ h ∈ Part000.mapHourlyEventsToLocalTime now tzOff data,
      h.count = Part000.JSNum.fin 0 ∨ h.count = Part000.JSNum.inf ∨
        h.count = Part000.JSNum.ninf ∨ h.count = Part000.JSNum.nan := by
    apply Part000.foldl_hourStepN_counts_closed tzOff data hdata
    intro h hmem
    exact Or.inl (Part000.customDayHoursN_count now tzOff h hmem)
  have hmax := Part000.jsMaxList_closed
    ((Part000.mapHourlyEventsToLocalTime now tzOff data).map Part000.HourSlotN.count)
    (by
      intro x hx
      rw [List.mem_map] at hx
      obtain ⟨h, hmem, hxh⟩ := hx
      subst hxh
      exact hcounts h hmem)
  have hscale : Part000.hourlyScaleFactor now tzOff data = Part000.JSNum.fin 0 := by
    simp only [Part000.hourlyScaleFactor]
    rcases hmax with hm | hm | hm | hm <;>
      rw [hm] <;> simp [Part000.jsTruthy, Part000.jsDiv]
  refine ⟨hscale, ?_⟩
  intro s hs
  simp only [Part000.barFillHeights] at hs
  rw [hscale] at hs
  rw [List.mem_map] at hs
  obtain ⟨h, hmem, hsh⟩ := hs
  subst hsh
  exact Part000.height_zero h.count

/-- C10 witness: a concrete dataset of NaN, Infinity and zero counts
gives scale factor 0. -/
theorem c10_hourly_chart_guard_witness :
    Part000.hourlyScaleFactor 720 60
        [(120, Part000.JSNum.nan), (180, Part000.JSNum.inf), (240, Part000.JSNum.fin 0)] =
      Part000.JSNum.fin 0 :=
  (c10_hourly_chart_guard 720 60
    [(120, Part000.JSNum.nan), (180, Part000.JSNum.inf), (240, Part000.JSNum.fin 0)]
    (by decide)).1
